import Mathlib

set_option maxHeartbeats 1000000

/-!
Shallow embedding of `src/main.py` (scriptblox-bot).

The program polls a remote listing API, filters broken items, delivers new
items to a webhook, and persists the set of delivered identifiers in
`posted.json`.  Pure functions of the source are translated directly; the
effectful parts are made explicit:

* the filesystem holding `posted.json` is a value of type `FS`;
* the HTTP transport is an oracle (`Nat → Attempt` for the fetch attempts,
  `Script → TransportResult` for webhook posts);
* `asyncio.sleep` calls performed by `fetch_scripts` are recorded as the
  list of sleep durations;
* items are records of exactly the fields the verified code paths read.

JSON values are modelled just deeply enough for `load_posted_ids` /
`save_posted_ids`: scalars (hashable in Python) versus lists and objects
(unhashable), since `set(data)` in the loader succeeds exactly on lists of
hashable values.
-/

/-- One item of the fetched listing, restricted to the fields the verified
code paths read: `_id`, `script` and `isPatched`.  `none` models an absent
(or JSON-null) field; `script_data.get("script", "") or ""` maps both to
the empty string. -/
structure Script where
  id : Option String
  script : Option String
  isPatched : Bool

/-- Python truthiness check on the identifier (`if not sid: continue` at
main.py:275 and the guard of the set comprehension at main.py:268): an
absent id or the empty string is treated as missing. -/
def getSid (s : Script) : Option String :=
  match s.id with
  | none => none
  | some sid => if sid = "" then none else some sid

/-- Content field with Python default: `script_data.get("script", "") or ""`
(main.py:89). -/
def contentOf (s : Script) : String :=
  s.script.getD ""

/-- Python substring test `needle in hay` on strings. -/
def strContains (hay needle : String) : Bool :=
  decide (needle.data <:+: hay.data)

/-- Python `str.lower()`, character by character (the banned tokens are
ASCII, where this agrees with Python). -/
def pyLower (s : String) : String :=
  String.mk (s.data.map Char.toLower)

/-- Banned token list of `script_is_broken` (main.py:95). -/
def BANNED : List String :=
  ["error", "nil", "invalid", "fail", "patched"]

/-- Validity filter `script_is_broken` (main.py:88-98). -/
def script_is_broken (s : Script) : Bool :=
  if s.isPatched || decide ((contentOf s).length < 5) then true
  else BANNED.any (fun bad => strContains (pyLower (contentOf s)) bad)

/-- Hashable scalar JSON values: Python can put these in a `set`. -/
inductive JAtom where
  | astr : String → JAtom
  | aint : Int → JAtom
  | abool : Bool → JAtom
  | anull : JAtom
deriving DecidableEq

/-- JSON values as far as the loader distinguishes them: hashable scalars,
lists, and everything else (objects), the latter two being unhashable in
Python. -/
inductive JVal where
  | atom : JAtom → JVal
  | arr : List JVal → JVal
  | obj : JVal

/-- Contents of `posted.json`: either bytes that fail `json.load`, or a
parsed JSON value. -/
inductive FileContent where
  | malformed : FileContent
  | json : JVal → FileContent

/-- The filesystem as seen by the store: `none` when `posted.json` does not
exist. -/
abbrev FS := Option FileContent

/-- Python `set(xs)` on the elements of a parsed JSON list: `none` models
the `TypeError` raised on the first unhashable element (caught by the
loader's `except`), otherwise the set of scalars. -/
def pyset : List JVal → Option (Finset JAtom)
  | [] => some ∅
  | JVal.atom a :: rest => (pyset rest).map (fun t => insert a t)
  | _ => none

/-- Injective key ordering the scalar values, so that a `Finset JAtom` can
be enumerated computably (Python's `list(set)` order is unspecified; any
fixed enumeration is a faithful choice). -/
def JAtom.key : JAtom → String ⊕ₗ (Int ⊕ₗ (Bool ⊕ₗ Unit))
  | JAtom.astr s => toLex (Sum.inl s)
  | JAtom.aint n => toLex (Sum.inr (toLex (Sum.inl n)))
  | JAtom.abool b => toLex (Sum.inr (toLex (Sum.inr (toLex (Sum.inl b)))))
  | JAtom.anull => toLex (Sum.inr (toLex (Sum.inr (toLex (Sum.inr ())))))

instance : LinearOrder JAtom :=
  LinearOrder.lift' JAtom.key
    (by intro a b h; cases a <;> cases b <;> simp [JAtom.key] at h <;> simp [h])

/-- Computable enumeration of a stored set, standing in for Python's
`list(posted_ids)`. -/
def atomList (p : Finset JAtom) : List JAtom :=
  Finset.sort (· ≤ ·) p

/-- `save_posted_ids` (main.py:56-67): serialize `list(posted_ids)` and
atomically replace `posted.json`.  The I/O-failure branch (caught and
logged in the source) is environmental and not modelled: a save always
lands. -/
def save_posted_ids (p : Finset JAtom) : FS :=
  some (FileContent.json (JVal.arr ((atomList p).map JVal.atom)))

/-- `load_posted_ids` (main.py:40-53), returning the loaded set and the
filesystem afterwards.  Missing file → empty set, no write.  `json.load`
failure, or `set(data)` raising on unhashable elements → empty set,
re-persisted (the `except` branch).  Well-formed JSON that is not a list →
`set([])`, with no exception and hence no re-persist. -/
def load_posted_ids : FS → Finset JAtom × FS
  | none => (∅, none)
  | some FileContent.malformed => (∅, save_posted_ids ∅)
  | some (FileContent.json v) =>
    match v with
    | JVal.arr xs =>
      match pyset xs with
      | some t => (t, some (FileContent.json (JVal.arr xs)))
      | none => (∅, save_posted_ids ∅)
    | _ => (∅, some (FileContent.json v))

/-- Live-identifier set `{s.get("_id") for s in scripts if s.get("_id")}`
(main.py:268). -/
def live_ids (sc : List Script) : Finset String :=
  (sc.filterMap getSid).toFinset

/-- Live identifiers embedded as stored atoms. -/
def live_atoms (sc : List Script) : Finset JAtom :=
  (live_ids sc).image JAtom.astr

/-- Result of one `cleanup_removed_scripts` call: the surviving set, the
filesystem, and whether a save happened. -/
structure CleanupResult where
  posted : Finset JAtom
  file : FS
  saved : Bool

/-- `cleanup_removed_scripts` (main.py:73-82): discard every stored id not
in the live set; save only when something was removed. -/
def cleanup_removed_scripts (live : Finset String) (posted : Finset JAtom)
    (file : FS) : CleanupResult :=
  let liveA := live.image JAtom.astr
  let removed := posted.filter (fun a => ¬ a ∈ liveA)
  if removed = ∅ then ⟨posted, file, false⟩
  else
    let kept := posted.filter (fun a => a ∈ liveA)
    ⟨kept, save_posted_ids kept, true⟩

/-- Result of the delivery loop: final set and filesystem, the identifiers
successfully delivered in order, and the number of saves performed by the
loop. -/
structure LoopResult where
  posted : Finset JAtom
  file : FS
  delivered : List String
  saves : Nat

/-- Delivery loop of `process_scripts` (main.py:273-286): skip items with a
falsy id, already-posted items, and broken items; on webhook success add
the id and save immediately; on failure move on.  `send` is the (pure)
outcome of `webhook_send` for each item. -/
def deliver_loop (send : Script → Bool) (posted : Finset JAtom) (file : FS) :
    List Script → LoopResult
  | [] => ⟨posted, file, [], 0⟩
  | s :: rest =>
    match getSid s with
    | none => deliver_loop send posted file rest
    | some sid =>
      if JAtom.astr sid ∈ posted then deliver_loop send posted file rest
      else if script_is_broken s then deliver_loop send posted file rest
      else if send s then
        let p := insert (JAtom.astr sid) posted
        let r := deliver_loop send p (save_posted_ids p) rest
        ⟨r.posted, r.file, sid :: r.delivered, r.saves + 1⟩
      else deliver_loop send posted file rest

/-- Result of one poll cycle. -/
structure CycleResult where
  posted : Finset JAtom
  file : FS
  delivered : List String
  deliverySaves : Nat
  cleanupSaved : Bool

/-- Body of `process_scripts` (main.py:258-292) after the fetch: compute
the live set, run cleanup unconditionally, then the delivery loop.  The
fetched listing is passed in, since the fetch itself is the transport
oracle's business. -/
def process_scripts (send : Script → Bool) (scripts : List Script)
    (posted : Finset JAtom) (file : FS) : CycleResult :=
  let c := cleanup_removed_scripts (live_ids scripts) posted file
  let r := deliver_loop send c.posted c.file scripts
  ⟨r.posted, r.file, r.delivered, r.saves, c.saved⟩

/-- Outcome of one webhook POST as the cycle observes it. -/
inductive TransportResult where
  | status : Nat → TransportResult
  | raised : TransportResult

/-- Result of `webhook_send`: the boolean it returns, and whether a POST
was actually issued. -/
structure SendResult where
  ok : Bool
  requested : Bool
deriving DecidableEq

/-- `webhook_send` (main.py:173-222): bail out early when the configured
URL is falsy (absent or empty); otherwise POST and report acceptance on
status 200/204, `false` on any other status or on an exception. -/
def webhook_send (url : Option String) (transport : Script → TransportResult)
    (s : Script) : SendResult :=
  if url.getD "" = "" then ⟨false, false⟩
  else
    match transport s with
    | TransportResult.status n => ⟨n == 200 || n == 204, true⟩
    | TransportResult.raised => ⟨false, true⟩

/-- Retry bound `MAX_RETRIES` (main.py:21). -/
def MAX_RETRIES : Nat := 3

/-- Outcome of one fetch attempt: a 200 response whose body parsed (with
the extracted listing, `[]` when the field is absent), a non-200 status, or
an exception (transport, timeout or body-parse failure). -/
inductive Attempt where
  | ok : List Script → Attempt
  | badStatus : Attempt
  | exn : Attempt

/-- Whether an attempt failed. -/
def Attempt.failed : Attempt → Bool
  | Attempt.ok _ => false
  | _ => true

/-- Retry loop of `fetch_scripts` (main.py:150-165): on success return the
listing at once; on a non-200 status or an exception sleep `attempt` time
units and move to the next iteration — including after the final attempt,
whose `sleep` also runs before the loop exits.  Returns the listing and
the recorded sleeps. -/
def fetchLoop (att : Nat → Attempt) : Nat → Nat → List Script × List Nat
  | 0, _ => ([], [])
  | fuel + 1, attempt =>
    match att attempt with
    | Attempt.ok scripts => (scripts, [])
    | _ =>
      let r := fetchLoop att fuel (attempt + 1)
      (r.1, attempt :: r.2)

/-- `fetch_scripts` (main.py:146-167): run the attempt loop for attempts
1 .. MAX_RETRIES; `([], sleeps)` when all fail. -/
def fetch_scripts (att : Nat → Attempt) : List Script × List Nat :=
  fetchLoop att MAX_RETRIES 1

/-- Python slice `s[:n]` on a string (by code points). -/
def pySlice (s : String) (n : Nat) : String :=
  String.mk (s.data.take n)

/-- Reply built by the copy-script interaction handler (main.py:245): the
raw content sliced to 1950 characters inside a lua code fence. -/
def copy_message (code : String) : String :=
  "```lua\n" ++ pySlice code 1950 ++ "\n```"

/-- Global state relevant to the re-entrancy guard: the `is_checking`
flag, the in-memory set and the filesystem. -/
structure GlobalState where
  is_checking : Bool
  posted : Finset JAtom
  file : FS

/-- How the body of a cycle ends: normally with a final state and the
delivered ids, or by raising with whatever state it had reached (the
`except` at main.py:288 swallows the exception). -/
inductive CycleOutcome where
  | normal : Finset JAtom → FS → List String → CycleOutcome
  | raised : Finset JAtom → FS → CycleOutcome

/-- Guard structure of `process_scripts` (main.py:258-292): return at once
when `is_checking` is set, otherwise run the body under try/except/finally,
clearing the flag on every exit path. -/
def run_cycle (g : GlobalState) (body : Finset JAtom → FS → CycleOutcome) :
    GlobalState × List String :=
  if g.is_checking then (g, [])
  else
    match body g.posted g.file with
    | CycleOutcome.normal p f d => (⟨false, p, f⟩, d)
    | CycleOutcome.raised p f => (⟨false, p, f⟩, [])

/-- The guarded cycle with the actual (non-raising) body. -/
def process_scripts_guarded (send : Script → Bool) (scripts : List Script)
    (g : GlobalState) : GlobalState × List String :=
  run_cycle g (fun p f =>
    let r := process_scripts send scripts p f
    CycleOutcome.normal r.posted r.file r.delivered)

/-- Transcription of claim C3's wording (spec §4.3), kept separate from the
source translation `script_is_broken` for the refinement comparison. -/
def brokenSpec (s : Script) : Prop :=
  s.isPatched = true ∨ s.script = none ∨ (contentOf s).length < 5 ∨
    ∃ tok ∈ BANNED, tok.data <:+: (pyLower (contentOf s)).data

/-- Concrete deliverable item used by witnesses. -/
def exampleScript : Script :=
  ⟨some "x1", some "printhello", false⟩

/-- Concrete content longer than the 1950-character display limit. -/
def longContent : String :=
  String.mk (List.replicate 1951 'a')

/-! Persistence lemmas. -/

theorem pyset_map_atom (l : List JAtom) :
    pyset (l.map JVal.atom) = some l.toFinset := by
  induction l with
  | nil => rfl
  | cons a t ih => simp [pyset, ih, List.toFinset_cons]

theorem load_save_roundtrip (p : Finset JAtom) :
    load_posted_ids (save_posted_ids p) = (p, save_posted_ids p) := by
  have h : pyset ((atomList p).map JVal.atom) = some p := by
    rw [pyset_map_atom, atomList, Finset.sort_toFinset]
  simp [load_posted_ids, save_posted_ids, h]

theorem save_ne_json_obj (p : Finset JAtom) :
    save_posted_ids p ≠ some (FileContent.json JVal.obj) := by
  intro h
  have h2 := Option.some.inj h
  injection h2 with h3
  injection h3

/-- Claim C4: saving any set of strings and loading again yields a set
equal to the one saved, the empty set included. -/
theorem save_load_roundtrip_strings (S : Finset String) :
    (load_posted_ids (save_posted_ids (S.image JAtom.astr))).1 = S.image JAtom.astr ∧
    ∀ x : String,
      JAtom.astr x ∈ (load_posted_ids (save_posted_ids (S.image JAtom.astr))).1 ↔ x ∈ S := by
  have h := load_save_roundtrip (S.image JAtom.astr)
  rw [h]
  exact ⟨rfl, fun x => by simp [Finset.mem_image]⟩

/-- Claim C5 counterexample: a backing file holding the JSON list `[1]` is
not a list of strings, yet `load()` returns the non-empty set containing 1;
and a file holding a JSON object loads as the empty set but is NOT
re-persisted: the file is left exactly as it was, not overwritten by a
save of the empty set. -/
theorem load_wrong_shape_cex :
    (load_posted_ids (some (FileContent.json (JVal.arr [JVal.atom (JAtom.aint 1)])))).1 ≠ ∅ ∧
    (load_posted_ids (some (FileContent.json JVal.obj))).2 = some (FileContent.json JVal.obj) ∧
    (load_posted_ids (some (FileContent.json JVal.obj))).2 ≠ save_posted_ids ∅ := by
  refine ⟨by decide, rfl, ?_⟩
  intro h
  exact save_ne_json_obj ∅ h.symm

/-- Claim C5 (amended): on malformed JSON, `load()` returns the empty set
and immediately re-persists it, and a subsequent `load()` also returns the
empty set.  On well-formed JSON that is not a list, `load()` returns the
empty set but performs no re-persist — the file is left unchanged — and a
subsequent `load()` still returns the empty set.  (A JSON list is accepted
whatever its scalar element types, so a list of non-strings loads as a
non-empty set; only lists count as the right shape.) -/
theorem load_corruption_amended (v : JVal) (hv : ∀ xs, v ≠ JVal.arr xs) :
    load_posted_ids (some FileContent.malformed) = (∅, save_posted_ids ∅) ∧
    (load_posted_ids (load_posted_ids (some FileContent.malformed)).2).1 = ∅ ∧
    load_posted_ids (some (FileContent.json v)) = (∅, some (FileContent.json v)) ∧
    (load_posted_ids (load_posted_ids (some (FileContent.json v))).2).1 = ∅ := by
  have h1 : load_posted_ids (some FileContent.malformed) = (∅, save_posted_ids ∅) := rfl
  have h3 : load_posted_ids (some (FileContent.json v)) = (∅, some (FileContent.json v)) := by
    cases v with
    | atom a => rfl
    | obj => rfl
    | arr xs => exact absurd rfl (hv xs)
  refine ⟨h1, ?_, h3, ?_⟩
  · rw [h1]
    have h2 := load_save_roundtrip ∅
    rw [h2]
  · rw [h3, h3]

theorem load_corruption_amended_witness :
    load_posted_ids (some (FileContent.json JVal.obj)) = (∅, some (FileContent.json JVal.obj)) ∧
    (load_posted_ids (load_posted_ids (some FileContent.malformed)).2).1 = ∅ := by
  have h := load_corruption_amended JVal.obj (fun xs h => JVal.noConfusion h)
  exact ⟨h.2.2.1, h.2.1⟩

/-! Fetch lemmas. -/

theorem fetchLoop_congr (att att2 : Nat → Attempt) :
    ∀ (fuel attempt : Nat),
      (∀ i, attempt ≤ i → i < attempt + fuel → att i = att2 i) →
      fetchLoop att fuel attempt = fetchLoop att2 fuel attempt := by
  intro fuel
  induction fuel with
  | zero => intro attempt _; rfl
  | succ n ih =>
    intro attempt h
    have e : att attempt = att2 attempt := h attempt (Nat.le_refl _) (by omega)
    have hrec := ih (attempt + 1) (fun i h1 h2 => h i (by omega) (by omega))
    cases ha : att2 attempt with
    | ok s => simp [fetchLoop, e, ha]
    | badStatus => simp [fetchLoop, e, ha, hrec]
    | exn => simp [fetchLoop, e, ha, hrec]

theorem fetchLoop_all_fail (att : Nat → Attempt) :
    ∀ (fuel attempt : Nat),
      (∀ i, attempt ≤ i → i < attempt + fuel → (att i).failed = true) →
      fetchLoop att fuel attempt = ([], List.range' attempt fuel) := by
  intro fuel
  induction fuel with
  | zero => intro attempt _; rfl
  | succ n ih =>
    intro attempt h
    have hfail : (att attempt).failed = true := h attempt (Nat.le_refl _) (by omega)
    have hrec := ih (attempt + 1) (fun i h1 h2 => h i (by omega) (by omega))
    cases ha : att attempt with
    | ok s => rw [ha] at hfail; simp [Attempt.failed] at hfail
    | badStatus => simp [fetchLoop, ha, hrec, List.range']
    | exn => simp [fetchLoop, ha, hrec, List.range']

/-- Claim C7 counterexample: when every attempt fails, `fetch_scripts`
returns the empty listing after sleeping 1, 2 AND 3 time units — there IS
a wait after the final attempt, so the sleep trace is not the claimed
`[1, 2]`. -/
theorem fetch_sleeps_cex :
    (fetch_scripts (fun _ => Attempt.exn)).1 = [] ∧
    (fetch_scripts (fun _ => Attempt.exn)).2 = [1, 2, 3] ∧
    (fetch_scripts (fun _ => Attempt.exn)).2 ≠ [1, 2] := by
  exact ⟨rfl, rfl, by decide⟩

/-- Claim C7 (amended): `fetch()` makes at most MAX_RETRIES (3) attempts —
its outcome depends only on attempts 1 to 3 — and sleeps `attempt_number`
time units after every failed attempt, including the final one: when all
attempts fail it sleeps 1, 2 and 3 units and then returns the empty
list. -/
theorem fetch_retry_amended (att att2 : Nat → Attempt)
    (hagree : ∀ i, 1 ≤ i → i ≤ MAX_RETRIES → att i = att2 i) :
    fetch_scripts att = fetch_scripts att2 ∧
    ((∀ i, 1 ≤ i → i ≤ MAX_RETRIES → (att i).failed = true) →
      fetch_scripts att = ([], [1, 2, 3])) := by
  constructor
  · exact fetchLoop_congr att att2 MAX_RETRIES 1
      (fun i h1 h2 => hagree i h1 (by simp [MAX_RETRIES] at h2 ⊢; omega))
  · intro hfail
    have h := fetchLoop_all_fail att MAX_RETRIES 1
      (fun i h1 h2 => hfail i h1 (by simp [MAX_RETRIES] at h2 ⊢; omega))
    rw [fetch_scripts, h]
    rfl

theorem fetch_retry_amended_witness :
    fetch_scripts (fun _ => Attempt.badStatus) = ([], [1, 2, 3]) := by
  exact (fetch_retry_amended (fun _ => Attempt.badStatus) (fun _ => Attempt.badStatus)
    (fun i h1 h2 => rfl)).2 (fun i h1 h2 => rfl)

/-! Copy-path lemmas. -/

theorem copy_message_data (code : String) :
    (copy_message code).data =
      "```lua\n".data ++ code.data.take 1950 ++ "\n```".data := by
  simp [copy_message, pySlice, String.data_append]

theorem no_marker_of_no_t (code : String) (h : ('t' : Char) ∉ code.data) :
    ¬ "truncated".data <:+: (copy_message code).data := by
  intro hinf
  have ht : ('t' : Char) ∈ (copy_message code).data :=
    hinf.subset (by decide)
  rw [copy_message_data] at ht
  rcases List.mem_append.mp ht with h12 | h3
  · rcases List.mem_append.mp h12 with h1 | h2
    · revert h1; decide
    · exact h (List.take_subset 1950 code.data h2)
  · revert h3; decide

/-- Claim C9 counterexample: content of 1951 characters exceeds the
display limit, yet the copy-path reply carries no "truncated" marker —
the content is silently cut at 1950 characters. -/
theorem copy_truncation_cex :
    longContent.length > 1950 ∧
    ¬ "truncated".data <:+: (copy_message longContent).data := by
  constructor
  · rw [longContent, String.length_mk, List.length_replicate]
    omega
  · apply no_marker_of_no_t
    rw [longContent]
    intro hmem
    have := List.eq_of_mem_replicate (show ('t' : Char) ∈ List.replicate 1951 'a' from hmem)
    cases this

/-- Claim C9 (amended): the copy-content path truncates the raw content to
its first 1950 characters inside a lua code fence; no "truncated" marker
is added when the content exceeds the display limit — oversized content is
silently cut (stated for content free of the letter t, which can thus not
produce the marker by itself). -/
theorem copy_truncation_amended (code : String) (h : ('t' : Char) ∉ code.data) :
    (copy_message code).data =
      "```lua\n".data ++ code.data.take 1950 ++ "\n```".data ∧
    ¬ "truncated".data <:+: (copy_message code).data := by
  exact ⟨copy_message_data code, no_marker_of_no_t code h⟩

theorem copy_truncation_amended_witness :
    (copy_message "abcd").data =
      "```lua\n".data ++ "abcd".data.take 1950 ++ "\n```".data ∧
    ¬ "truncated".data <:+: (copy_message "abcd").data := by
  exact copy_truncation_amended "abcd" (by decide)

/-- Claim C3: `script_is_broken` returns true exactly when the patched
flag is set, or the content field is absent or shorter than 5 characters,
or the lowercased content contains one of the banned tokens; on every
other item it returns false. -/
theorem script_is_broken_spec (s : Script) :
    script_is_broken s = true ↔ brokenSpec s := by
  rw [script_is_broken, brokenSpec]
  by_cases hp : s.isPatched = true
  · simp [hp]
  · have hp2 : s.isPatched = false := by revert hp; cases s.isPatched <;> simp
    by_cases hl : (contentOf s).length < 5
    · simp [hp2, hl]
    · have hnn : ¬ s.script = none := by
        intro hn
        rw [contentOf, hn] at hl
        simp at hl
      simp [hp2, hl, hnn, List.any_eq_true, strContains]

/-- Claim C8: invoking a cycle while the busy flag is set is a no-op — the
state, the file and the delivery list are untouched — and a cycle started
while idle always returns the flag to idle, whether its body finishes
normally or raises. -/
theorem reentrancy_guard (send : Script → Bool) (scripts : List Script)
    (posted : Finset JAtom) (file : FS) (body : Finset JAtom → FS → CycleOutcome) :
    process_scripts_guarded send scripts ⟨true, posted, file⟩ =
      (⟨true, posted, file⟩, []) ∧
    (run_cycle ⟨false, posted, file⟩ body).1.is_checking = false := by
  constructor
  · rfl
  · cases h : body posted file <;> simp [run_cycle, h]

/-! Delivery-loop lemmas. -/

theorem deliver_loop_mono (send : Script → Bool) :
    ∀ (sc : List Script) (p : Finset JAtom) (f : FS),
      p ⊆ (deliver_loop send p f sc).posted := by
  intro sc
  induction sc with
  | nil => intro p f; exact fun a ha => ha
  | cons s rest ih =>
    intro p f
    cases hg : getSid s with
    | none => simp only [deliver_loop, hg]; exact ih p f
    | some sid =>
      simp only [deliver_loop, hg]
      by_cases h1 : JAtom.astr sid ∈ p
      · simp only [if_pos h1]; exact ih p f
      · simp only [if_neg h1]
        by_cases h2 : script_is_broken s = true
        · simp only [if_pos h2]; exact ih p f
        · simp only [if_neg h2]
          by_cases h3 : send s = true
          · simp only [if_pos h3]
            exact fun a ha => ih _ _ (Finset.mem_insert_of_mem ha)
          · simp only [if_neg h3]; exact ih p f

theorem mem_live_atoms {sc : List Script} {s : Script} {sid : String}
    (hs : s ∈ sc) (hg : getSid s = some sid) :
    JAtom.astr sid ∈ live_atoms sc := by
  apply Finset.mem_image_of_mem
  rw [live_ids, List.mem_toFinset]
  exact List.mem_filterMap.mpr ⟨s, hs, hg⟩

theorem live_atoms_cons_subset (s : Script) (rest : List Script) :
    live_atoms rest ⊆ live_atoms (s :: rest) := by
  apply Finset.image_subset_image
  intro a ha
  rw [live_ids, List.mem_toFinset] at ha ⊢
  rcases List.mem_filterMap.mp ha with ⟨x, hx, hfx⟩
  exact List.mem_filterMap.mpr ⟨x, List.mem_cons_of_mem _ hx, hfx⟩

theorem deliver_loop_subset (send : Script → Bool) :
    ∀ (sc : List Script) (p : Finset JAtom) (f : FS),
      (deliver_loop send p f sc).posted ⊆ p ∪ live_atoms sc := by
  intro sc
  induction sc with
  | nil => intro p f; exact fun a ha => Finset.mem_union_left _ ha
  | cons s rest ih =>
    intro p f
    have hsub : p ∪ live_atoms rest ⊆ p ∪ live_atoms (s :: rest) :=
      Finset.union_subset_union (Finset.Subset.refl p) (live_atoms_cons_subset s rest)
    cases hg : getSid s with
    | none => simp only [deliver_loop, hg]; exact (ih p f).trans hsub
    | some sid =>
      simp only [deliver_loop, hg]
      by_cases h1 : JAtom.astr sid ∈ p
      · simp only [if_pos h1]; exact (ih p f).trans hsub
      · simp only [if_neg h1]
        by_cases h2 : script_is_broken s = true
        · simp only [if_pos h2]; exact (ih p f).trans hsub
        · simp only [if_neg h2]
          by_cases h3 : send s = true
          · simp only [if_pos h3]
            have hmem : JAtom.astr sid ∈ live_atoms (s :: rest) :=
              mem_live_atoms (List.mem_cons_self s rest) hg
            refine (ih _ _).trans ?_
            intro a ha
            rcases Finset.mem_union.mp ha with hp | hl
            · rcases Finset.mem_insert.mp hp with rfl | hp2
              · exact Finset.mem_union_right _ hmem
              · exact Finset.mem_union_left _ hp2
            · exact Finset.mem_union_right _ (live_atoms_cons_subset s rest hl)
          · simp only [if_neg h3]; exact (ih p f).trans hsub

theorem deliver_loop_covers (send : Script → Bool) :
    ∀ (sc : List Script) (p : Finset JAtom) (f : FS) (s : Script) (sid : String),
      s ∈ sc → getSid s = some sid → script_is_broken s = false → send s = true →
      JAtom.astr sid ∈ (deliver_loop send p f sc).posted := by
  intro sc
  induction sc with
  | nil => intro p f s sid hs; cases hs
  | cons hd rest ih =>
    intro p f s sid hs hg hb hsend
    rcases List.mem_cons.mp hs with rfl | hmem
    · simp only [deliver_loop, hg]
      by_cases h1 : JAtom.astr sid ∈ p
      · simp only [if_pos h1]
        exact deliver_loop_mono send rest p f h1
      · have hb2 : ¬ script_is_broken s = true := by
          rw [hb]; exact Bool.false_ne_true
        simp only [if_neg h1, if_neg hb2, if_pos hsend]
        exact deliver_loop_mono send rest _ _ (Finset.mem_insert_self _ _)
    · cases hg2 : getSid hd with
      | none =>
        simp only [deliver_loop, hg2]
        exact ih p f s sid hmem hg hb hsend
      | some sid2 =>
        simp only [deliver_loop, hg2]
        by_cases h1 : JAtom.astr sid2 ∈ p
        · simp only [if_pos h1]; exact ih p f s sid hmem hg hb hsend
        · simp only [if_neg h1]
          by_cases h2 : script_is_broken hd = true
          · simp only [if_pos h2]; exact ih p f s sid hmem hg hb hsend
          · simp only [if_neg h2]
            by_cases h3 : send hd = true
            · simp only [if_pos h3]
              exact ih _ _ s sid hmem hg hb hsend
            · simp only [if_neg h3]; exact ih p f s sid hmem hg hb hsend

theorem deliver_loop_noop (send : Script → Bool) :
    ∀ (sc : List Script) (p : Finset JAtom) (f : FS),
      (∀ s, s ∈ sc → ∀ sid, getSid s = some sid → script_is_broken s = false →
        send s = true → JAtom.astr sid ∈ p) →
      deliver_loop send p f sc = ⟨p, f, [], 0⟩ := by
  intro sc
  induction sc with
  | nil => intro p f _; rfl
  | cons s rest ih =>
    intro p f h
    have hrest : ∀ s2, s2 ∈ rest → ∀ sid, getSid s2 = some sid →
        script_is_broken s2 = false → send s2 = true → JAtom.astr sid ∈ p :=
      fun s2 hs2 => h s2 (List.mem_cons_of_mem _ hs2)
    cases hg : getSid s with
    | none => simp only [deliver_loop, hg]; exact ih p f hrest
    | some sid =>
      simp only [deliver_loop, hg]
      by_cases h1 : JAtom.astr sid ∈ p
      · simp only [if_pos h1]; exact ih p f hrest
      · simp only [if_neg h1]
        by_cases h2 : script_is_broken s = true
        · simp only [if_pos h2]; exact ih p f hrest
        · simp only [if_neg h2]
          have h2f : script_is_broken s = false := by
            revert h2; cases script_is_broken s <;> simp
          by_cases h3 : send s = true
          · exact absurd (h s (List.mem_cons_self s rest) sid hg h2f h3) h1
          · simp only [if_neg h3]; exact ih p f hrest

theorem deliver_loop_fresh (send : Script → Bool) :
    ∀ (sc : List Script) (p : Finset JAtom) (f : FS),
      (deliver_loop send p f sc).delivered.Nodup ∧
      ∀ sid, sid ∈ (deliver_loop send p f sc).delivered → JAtom.astr sid ∉ p := by
  intro sc
  induction sc with
  | nil =>
    intro p f
    exact ⟨List.nodup_nil, fun sid h => absurd h (List.not_mem_nil sid)⟩
  | cons s rest ih =>
    intro p f
    cases hg : getSid s with
    | none => simp only [deliver_loop, hg]; exact ih p f
    | some sid =>
      simp only [deliver_loop, hg]
      by_cases h1 : JAtom.astr sid ∈ p
      · simp only [if_pos h1]; exact ih p f
      · simp only [if_neg h1]
        by_cases h2 : script_is_broken s = true
        · simp only [if_pos h2]; exact ih p f
        · simp only [if_neg h2]
          by_cases h3 : send s = true
          · simp only [if_pos h3]
            have hrec := ih (insert (JAtom.astr sid) p) (save_posted_ids (insert (JAtom.astr sid) p))
            constructor
            · refine List.Nodup.cons ?_ hrec.1
              intro hmem
              exact hrec.2 sid hmem (Finset.mem_insert_self _ _)
            · intro sid2 hmem
              rcases List.mem_cons.mp hmem with rfl | hmem2
              · exact h1
              · intro hp
                exact hrec.2 sid2 hmem2 (Finset.mem_insert_of_mem hp)
          · simp only [if_neg h3]; exact ih p f

theorem deliver_loop_delivered_posted (send : Script → Bool) :
    ∀ (sc : List Script) (p : Finset JAtom) (f : FS) (sid : String),
      sid ∈ (deliver_loop send p f sc).delivered →
      JAtom.astr sid ∈ (deliver_loop send p f sc).posted := by
  intro sc
  induction sc with
  | nil => intro p f sid h; exact absurd h (List.not_mem_nil sid)
  | cons s rest ih =>
    intro p f sid h
    cases hg : getSid s with
    | none =>
      simp only [deliver_loop, hg] at h ⊢
      exact ih p f sid h
    | some sid2 =>
      simp only [deliver_loop, hg] at h ⊢
      by_cases h1 : JAtom.astr sid2 ∈ p
      · simp only [if_pos h1] at h ⊢; exact ih p f sid h
      · simp only [if_neg h1] at h ⊢
        by_cases h2 : script_is_broken s = true
        · simp only [if_pos h2] at h ⊢; exact ih p f sid h
        · simp only [if_neg h2] at h ⊢
          by_cases h3 : send s = true
          · simp only [if_pos h3] at h ⊢
            rcases List.mem_cons.mp h with rfl | hmem
            · exact deliver_loop_mono send rest _ _ (Finset.mem_insert_self _ _)
            · exact ih _ _ sid hmem
          · simp only [if_neg h3] at h ⊢; exact ih p f sid h

/-! Cleanup lemmas. -/

theorem cleanup_subset (live : Finset String) (posted : Finset JAtom) (file : FS) :
    (cleanup_removed_scripts live posted file).posted ⊆ posted := by
  simp only [cleanup_removed_scripts]
  split_ifs with h
  · exact Finset.Subset.refl _
  · exact Finset.filter_subset _ _

theorem cleanup_subset_live (live : Finset String) (posted : Finset JAtom) (file : FS) :
    (cleanup_removed_scripts live posted file).posted ⊆ live.image JAtom.astr := by
  simp only [cleanup_removed_scripts]
  split_ifs with h
  · intro a ha
    by_contra hna
    have hmem : a ∈ posted.filter (fun a => ¬ a ∈ live.image JAtom.astr) :=
      Finset.mem_filter.mpr ⟨ha, hna⟩
    rw [h] at hmem
    exact absurd hmem (Finset.not_mem_empty a)
  · intro a ha
    exact (Finset.mem_filter.mp ha).2

theorem cleanup_noop (live : Finset String) (posted : Finset JAtom) (file : FS)
    (h : posted ⊆ live.image JAtom.astr) :
    cleanup_removed_scripts live posted file = ⟨posted, file, false⟩ := by
  have hcond : posted.filter (fun a => ¬ a ∈ live.image JAtom.astr) = ∅ :=
    Finset.filter_eq_empty_iff.mpr (fun x hx => not_not_intro (h hx))
  simp only [cleanup_removed_scripts]
  rw [hcond]
  simp

theorem process_scripts_noop (send : Script → Bool) (scripts : List Script)
    (q : Finset JAtom) (g : FS)
    (hcl : cleanup_removed_scripts (live_ids scripts) q g = ⟨q, g, false⟩)
    (hlp : deliver_loop send q g scripts = ⟨q, g, [], 0⟩) :
    process_scripts send scripts q g = ⟨q, g, [], 0, false⟩ := by
  simp only [process_scripts, hcl, hlp]

/-- Claim C2: running one cycle on a fetched listing and then a second
cycle on the same listing delivers each identifier exactly once overall:
the first cycle's delivered identifiers are pairwise distinct and all
recorded in the set it leaves behind, and the second cycle delivers zero
items, saves nothing, and leaves the Identifier Set and the persisted
store unchanged. -/
theorem second_cycle_idempotent (send : Script → Bool) (scripts : List Script)
    (posted : Finset JAtom) (file : FS) :
    (process_scripts send scripts posted file).delivered.Nodup ∧
    (∀ sid, sid ∈ (process_scripts send scripts posted file).delivered →
      JAtom.astr sid ∈ (process_scripts send scripts posted file).posted) ∧
    process_scripts send scripts (process_scripts send scripts posted file).posted
        (process_scripts send scripts posted file).file =
      ⟨(process_scripts send scripts posted file).posted,
       (process_scripts send scripts posted file).file, [], 0, false⟩ := by
  have hcov : ∀ s, s ∈ scripts → ∀ sid, getSid s = some sid →
      script_is_broken s = false → send s = true →
      JAtom.astr sid ∈ (process_scripts send scripts posted file).posted :=
    fun s hs sid hg hb hsd =>
      deliver_loop_covers send scripts
        (cleanup_removed_scripts (live_ids scripts) posted file).posted
        (cleanup_removed_scripts (live_ids scripts) posted file).file
        s sid hs hg hb hsd
  have hlive : (process_scripts send scripts posted file).posted ⊆
      live_atoms scripts := by
    intro a ha
    have ha2 := deliver_loop_subset send scripts
      (cleanup_removed_scripts (live_ids scripts) posted file).posted
      (cleanup_removed_scripts (live_ids scripts) posted file).file ha
    rcases Finset.mem_union.mp ha2 with h | h
    · exact cleanup_subset_live (live_ids scripts) posted file h
    · exact h
  have hclean2 := cleanup_noop (live_ids scripts)
    (process_scripts send scripts posted file).posted
    (process_scripts send scripts posted file).file hlive
  have hloop2 := deliver_loop_noop send scripts
    (process_scripts send scripts posted file).posted
    (process_scripts send scripts posted file).file hcov
  refine ⟨?_, ?_, ?_⟩
  · show (deliver_loop send
        (cleanup_removed_scripts (live_ids scripts) posted file).posted
        (cleanup_removed_scripts (live_ids scripts) posted file).file
        scripts).delivered.Nodup
    exact (deliver_loop_fresh send scripts _ _).1
  · intro sid h
    show JAtom.astr sid ∈ (deliver_loop send
        (cleanup_removed_scripts (live_ids scripts) posted file).posted
        (cleanup_removed_scripts (live_ids scripts) posted file).file
        scripts).posted
    exact deliver_loop_delivered_posted send scripts _ _ sid h
  · exact process_scripts_noop send scripts _ _ hclean2 hloop2

/-- Claim C6: within a cycle, an attempted item (valid new identifier, not
broken) behaves according to the delivery outcome: on success its
identifier is added to the set and the enlarged set is persisted
immediately — exactly one additional save — before the loop continues on
the remaining items; on reported failure (which includes a raising
transport, caught inside `webhook_send`) the identifier is not added, no
save occurs for that item, and the loop continues with the next item. -/
theorem delivery_per_item (send : Script → Bool) (posted : Finset JAtom)
    (file : FS) (s : Script) (rest : List Script) (sid : String)
    (hg : getSid s = some sid) (hnew : JAtom.astr sid ∉ posted)
    (hok : script_is_broken s = false) :
    (send s = true →
      deliver_loop send posted file (s :: rest) =
        ⟨(deliver_loop send (insert (JAtom.astr sid) posted)
            (save_posted_ids (insert (JAtom.astr sid) posted)) rest).posted,
         (deliver_loop send (insert (JAtom.astr sid) posted)
            (save_posted_ids (insert (JAtom.astr sid) posted)) rest).file,
         sid :: (deliver_loop send (insert (JAtom.astr sid) posted)
            (save_posted_ids (insert (JAtom.astr sid) posted)) rest).delivered,
         (deliver_loop send (insert (JAtom.astr sid) posted)
            (save_posted_ids (insert (JAtom.astr sid) posted)) rest).saves + 1⟩) ∧
    (send s = false →
      deliver_loop send posted file (s :: rest) =
        deliver_loop send posted file rest) := by
  have hb2 : ¬ script_is_broken s = true := by rw [hok]; exact Bool.false_ne_true
  constructor
  · intro hsend
    simp only [deliver_loop, hg, if_neg hnew, if_neg hb2, if_pos hsend]
  · intro hsend
    have hs2 : ¬ send s = true := by rw [hsend]; exact Bool.false_ne_true
    simp only [deliver_loop, hg, if_neg hnew, if_neg hb2, if_neg hs2]

theorem delivery_per_item_witness :
    deliver_loop (fun _ => true) ∅ none [exampleScript] =
      ⟨insert (JAtom.astr "x1") ∅,
       save_posted_ids (insert (JAtom.astr "x1") ∅), ["x1"], 1⟩ := by
  exact (delivery_per_item (fun _ => true) ∅ none exampleScript [] "x1"
    rfl (Finset.not_mem_empty _) (by decide)).1 rfl

/-- Claim C10: when the configured webhook URL is unset or empty,
`webhook_send` returns false without issuing any transport request, and a
cycle run in that configuration delivers nothing, performs no
delivery-path save, and never adds an identifier to the Identifier Set. -/
theorem webhook_missing_no_delivery (url : Option String)
    (transport : Script → TransportResult) (hurl : url.getD "" = "")
    (scripts : List Script) (posted : Finset JAtom) (file : FS) :
    (∀ s, webhook_send url transport s = ⟨false, false⟩) ∧
    (process_scripts (fun s => (webhook_send url transport s).ok)
      scripts posted file).delivered = [] ∧
    (process_scripts (fun s => (webhook_send url transport s).ok)
      scripts posted file).deliverySaves = 0 ∧
    (process_scripts (fun s => (webhook_send url transport s).ok)
      scripts posted file).posted ⊆ posted := by
  have hws : ∀ s, webhook_send url transport s = ⟨false, false⟩ := by
    intro s
    rw [webhook_send, if_pos hurl]
  have hok : ∀ s, (webhook_send url transport s).ok = false := by
    intro s; rw [hws s]
  have hloop := deliver_loop_noop (fun s => (webhook_send url transport s).ok) scripts
    (cleanup_removed_scripts (live_ids scripts) posted file).posted
    (cleanup_removed_scripts (live_ids scripts) posted file).file
    (fun s _ sid _ _ hsd => absurd hsd
      (show ¬ (webhook_send url transport s).ok = true by
        rw [hok s]; exact Bool.false_ne_true))
  refine ⟨hws, ?_, ?_, ?_⟩
  · show (deliver_loop (fun s => (webhook_send url transport s).ok)
        (cleanup_removed_scripts (live_ids scripts) posted file).posted
        (cleanup_removed_scripts (live_ids scripts) posted file).file
        scripts).delivered = []
    rw [hloop]
  · show (deliver_loop (fun s => (webhook_send url transport s).ok)
        (cleanup_removed_scripts (live_ids scripts) posted file).posted
        (cleanup_removed_scripts (live_ids scripts) posted file).file
        scripts).saves = 0
    rw [hloop]
  · intro a ha
    have ha2 : a ∈ (deliver_loop (fun s => (webhook_send url transport s).ok)
        (cleanup_removed_scripts (live_ids scripts) posted file).posted
        (cleanup_removed_scripts (live_ids scripts) posted file).file
        scripts).posted := ha
    rw [hloop] at ha2
    exact cleanup_subset (live_ids scripts) posted file ha2

theorem webhook_missing_no_delivery_witness :
    webhook_send none (fun _ => TransportResult.raised) exampleScript =
      ⟨false, false⟩ ∧
    (process_scripts
      (fun s => (webhook_send none (fun _ => TransportResult.raised) s).ok)
      [] ∅ none).delivered = [] := by
  have h := webhook_missing_no_delivery none (fun _ => TransportResult.raised)
    rfl [] ∅ none
  exact ⟨h.1 exampleScript, h.2.1⟩

/-- Claim C1 (code bug): `fetch()` failing all 3 attempts yields the empty
listing, but the cycle receiving it does NOT leave the Identifier Set and
the persisted store unchanged: cleanup runs against the empty live set,
removes every stored identifier (here the stored id a) and persists the
now-empty set. -/
theorem fetch_failure_wipes_store :
    (fetch_scripts (fun _ => Attempt.exn)).1 = [] ∧
    (process_scripts (fun _ => true) (fetch_scripts (fun _ => Attempt.exn)).1
        {JAtom.astr "a"} (save_posted_ids {JAtom.astr "a"})).posted = ∅ ∧
    (process_scripts (fun _ => true) (fetch_scripts (fun _ => Attempt.exn)).1
        {JAtom.astr "a"} (save_posted_ids {JAtom.astr "a"})).cleanupSaved = true ∧
    (process_scripts (fun _ => true) (fetch_scripts (fun _ => Attempt.exn)).1
        {JAtom.astr "a"} (save_posted_ids {JAtom.astr "a"})).file = save_posted_ids ∅ := by
  exact ⟨rfl, by decide, by decide, rfl⟩
